import Mathlib

/-!
# Verification of the spawnee orchestration core

Shallow embedding of the spawnee repository's scheduling core:
the `TaskQueue` class (dependency-readiness propagation, status transitions,
retry policy, completion aggregation) and the `Orchestrator` class
(concurrency-bounded dispatch, executor-handle bindings, timeout timers,
signal routing, run control).

Modelling conventions:
* JS `Map` (insertion-ordered, `set` replaces in place) is modelled as an
  association list with a replace-or-append update (`setTask`), and `Set` as a
  duplicate-free list with append-if-absent (`addCompleted`).
* Event emission (`EventEmitter`) is modelled by returning the list of emitted
  queue events from each queue operation.  The orchestrator's synchronous
  handler for the queue's `allComplete` event (reset the running flag, clear all
  timers) is applied explicitly wherever a queue operation can emit it
  (`applyQueueEvents`).  The `taskReady` handler (which re-invokes the dispatch
  loop) is modelled by the freestanding `Step.dispatch` transition.
* The external collaborators (CursorClient, StateStore, Logger) perform no
  mutation of the modelled state; their calls (`startMonitoring`,
  `stopMonitoring`, `stopAgent`, `saveState`, logging) are omitted.  `saveState`
  is modelled as never failing.
* `new Date().toISOString()` is modelled by threading an opaque `now : String`.
* The single-threaded, cooperatively scheduled execution of the orchestrator is
  modelled by the small-step relation `Step`: each step is one synchronous
  segment of JS code between two `await` suspension points (or one event
  handler).  A dispatch-loop invocation (`trySpawnAgents`) runs its synchronous
  prefix (running-flag check, slot computation, batch selection) as one step and
  leaves the selected batch as a suspended in-flight loop; each executor-start
  resolution (success or rejection) of the head of a suspended batch is its own
  step, because `spawnAgent` awaits `createAgent` before binding.
-/

namespace Spawnee

/-- Source `TaskStatus` from task-queue.ts:
`'pending' | 'ready' | 'running' | 'completed' | 'failed'`. -/
inductive TaskStatus
| pending
| ready
| running
| completed
| failed
deriving DecidableEq

/-- The optional `validation` spec of a task (a command and a success pattern). -/
structure Validation where
  command : String
  successPattern : String
deriving DecidableEq

/-- Source `TaskResult` from task-queue.ts. -/
structure TaskResult where
  branch : Option String := none
  pullRequestUrl : Option String := none
  completedAt : String
deriving DecidableEq

/-- The `Partial<TaskResult>` argument of `markCompleted`.  `markCompleted`
always overwrites `completedAt` with its own timestamp, so only the other two
fields of the argument matter. -/
structure ResultArg where
  branch : Option String := none
  pullRequestUrl : Option String := none
deriving DecidableEq

/-- The `Task` interface from task-queue.ts. -/
structure Task where
  id : String
  name : String
  prompt : String
  dependsOn : List String
  priority : Int
  branch : Option String := none
  files : Option (List String) := none
  timeout : Option Nat := none
  retries : Option Nat := none
  validation : Option Validation := none
  complete : Option Bool := none
  status : TaskStatus
  agentId : Option String := none
  attempts : Nat
  error : Option String := none
  result : Option TaskResult := none
deriving DecidableEq

/-- Source `TaskInput = Omit<Task, 'status' | 'attempts' | 'agentId' | 'error' | 'result'>`. -/
structure TaskInput where
  id : String
  name : String
  prompt : String
  dependsOn : List String
  priority : Int
  branch : Option String := none
  files : Option (List String) := none
  timeout : Option Nat := none
  retries : Option Nat := none
  validation : Option Validation := none
  complete : Option Bool := none
deriving DecidableEq

/-- Source `{ ...input, status: 'pending', attempts: 0 }` — the task record built by
`addTask` / `addTasks` from an input. -/
def taskOfInput (i : TaskInput) : Task :=
  { id := i.id, name := i.name, prompt := i.prompt, dependsOn := i.dependsOn,
    priority := i.priority, branch := i.branch, files := i.files,
    timeout := i.timeout, retries := i.retries, validation := i.validation,
    complete := i.complete, status := .pending, attempts := 0 }

/-- The events a `TaskQueue` emits (`this.emit(...)` in task-queue.ts).
Payloads other than the task id are dropped. -/
inductive QEvent
| taskReady (id : String)
| taskStarted (id : String)
| taskCompleted (id : String)
| taskRetry (id : String)
| taskFailed (id : String)
| allComplete
deriving DecidableEq

/-- The private state of a `TaskQueue`:
`tasks: Map<string, Task>` (insertion-ordered) and `completed: Set<string>`. -/
structure QState where
  tasks : List Task
  completed : List String
deriving DecidableEq

/-- Source `this.tasks.get(id)` — first task with the given id. -/
def getTaskL (l : List Task) (id : String) : Option Task :=
  match l with
  | [] => none
  | t :: ts => if t.id = id then some t else getTaskL ts id

/-- Source `this.tasks.get(id)`. -/
def QState.getTask (q : QState) (id : String) : Option Task :=
  getTaskL q.tasks id

/-- Source `this.tasks.set(t.id, t)` — JS `Map.set`: an existing key is updated in
place (keeping its position in iteration order), a new key is appended. -/
def setTask (l : List Task) (t : Task) : List Task :=
  match l with
  | [] => [t]
  | x :: xs => if x.id = t.id then t :: xs else x :: setTask xs t

/-- Source `this.completed.add(id)` — JS `Set.add`: appends if absent. -/
def addCompleted (c : List String) (id : String) : List String :=
  if id ∈ c then c else c ++ [id]

/-- Source `task.dependsOn.every(depId => this.completed.has(depId))`. -/
def depsComplete (completed : List String) (t : Task) : Prop :=
  ∀ d ∈ t.dependsOn, d ∈ completed

instance (completed : List String) (t : Task) : Decidable (depsComplete completed t) := by
  unfold depsComplete; infer_instance

/-- The per-task effect of one iteration of the `updateReadyTasks` scan:
a `pending` task whose dependencies are all completed becomes `ready`,
every other task is untouched. -/
def promoteReady (completed : List String) (t : Task) : Task :=
  if t.status = .pending ∧ depsComplete completed t then { t with status := .ready } else t

/-- The `updateReadyTasks` loop over the task list, also collecting the
`taskReady` events it emits. -/
def updateReadyTasksL (completed : List String) : List Task → List Task × List QEvent
  | [] => ([], [])
  | t :: ts =>
    let rest := updateReadyTasksL completed ts
    if t.status = .pending ∧ depsComplete completed t then
      ({ t with status := .ready } :: rest.1, .taskReady t.id :: rest.2)
    else
      (t :: rest.1, rest.2)

/-- Source `private updateReadyTasks()` from task-queue.ts. -/
def updateReadyTasks (q : QState) : QState × List QEvent :=
  let r := updateReadyTasksL q.completed q.tasks
  ({ q with tasks := r.1 }, r.2)

/-- Insert a task into a list sorted by descending priority, after every
element of priority `≥` its own (the placement a stable sort gives it). -/
def insertDesc (x : Task) : List Task → List Task
  | [] => [x]
  | y :: ys => if x.priority < y.priority then y :: insertDesc x ys else x :: y :: ys

/-- Stable sort by descending priority — the behaviour of the (stable, per the
ECMAScript spec) `Array.prototype.sort` with comparator
`(a, b) => b.priority - a.priority` in `getReadyTasks`. -/
def sortDesc : List Task → List Task
  | [] => []
  | x :: xs => insertDesc x (sortDesc xs)

/-- Source `getReadyTasks()` from task-queue.ts:
`Array.from(this.tasks.values()).filter(t => t.status === 'ready')
.sort((a, b) => b.priority - a.priority)`. -/
def QState.getReadyTasks (q : QState) : List Task :=
  sortDesc (q.tasks.filter (fun t => t.status = .ready))

/-- Source `tasks.every(t => t.status === 'completed' || t.status === 'failed')`. -/
def allDone (q : QState) : Bool :=
  q.tasks.all (fun t => t.status = .completed ∨ t.status = .failed)

/-- Source `private checkAllComplete()` from task-queue.ts: emits `allComplete` iff
every task is in a terminal status.  (It mutates nothing, so only the emitted
events are returned.) -/
def checkAllComplete (q : QState) : List QEvent :=
  if allDone q then [.allComplete] else []

/-- Source `markRunning(id, agentId)` from task-queue.ts. -/
def markRunning (q : QState) (id agentId : String) : QState × List QEvent :=
  match q.getTask id with
  | none => (q, [])
  | some t =>
    let t' : Task :=
      { t with status := .running, agentId := some agentId, attempts := t.attempts + 1 }
    ({ q with tasks := setTask q.tasks t' }, [.taskStarted id])

/-- Source `markCompleted(id, result?, checkComplete = true)` from task-queue.ts. -/
def markCompleted (q : QState) (id : String) (res : ResultArg) (checkComplete : Bool)
    (now : String) : QState × List QEvent :=
  match q.getTask id with
  | none => (q, [])
  | some t =>
    let r' : TaskResult :=
      { branch := res.branch, pullRequestUrl := res.pullRequestUrl, completedAt := now }
    let t' : Task := { t with status := .completed, result := some r' }
    let q1 : QState := { tasks := setTask q.tasks t', completed := addCompleted q.completed id }
    let r := updateReadyTasks q1
    (r.1, .taskCompleted id :: r.2 ++ (if checkComplete then checkAllComplete r.1 else []))

/-- Source `markFailed(id, error, maxRetries = 2)` from task-queue.ts. -/
def markFailed (q : QState) (id err : String) (maxRetries : Nat := 2) : QState × List QEvent :=
  match q.getTask id with
  | none => (q, [])
  | some t =>
    if t.attempts < (t.retries.getD maxRetries) then
      let t' : Task := { t with error := some err, status := .ready }
      ({ q with tasks := setTask q.tasks t' }, [.taskRetry id])
    else
      let t' : Task := { t with error := some err, status := .failed }
      let q' : QState := { q with tasks := setTask q.tasks t' }
      (q', .taskFailed id :: checkAllComplete q')

/-- The `inputs.forEach(...)` body of `addTasks`: insert each input as a fresh
`pending` task, and if its `complete` flag is truthy, immediately
`markCompleted` it with `checkComplete = false`. -/
def addTasksGo (now : String) : QState → List QEvent → List TaskInput → QState × List QEvent
  | q, evs, [] => (q, evs)
  | q, evs, i :: rest =>
    let t := taskOfInput i
    let q' : QState := { q with tasks := setTask q.tasks t }
    if t.complete.getD false then
      let r := markCompleted q' t.id {} false now
      addTasksGo now r.1 (evs ++ r.2) rest
    else
      addTasksGo now q' evs rest

/-- Source `addTasks(inputs)` from task-queue.ts: insert the whole batch (pre-marked
complete tasks are completed immediately, with the termination check
suppressed), then recompute readiness once. -/
def addTasks (q : QState) (inputs : List TaskInput) (now : String) : QState × List QEvent :=
  let r := addTasksGo now q [] inputs
  let u := updateReadyTasks r.1
  (u.1, r.2 ++ u.2)

/-- The empty queue (`new TaskQueue()`). -/
def emptyQ : QState := { tasks := [], completed := [] }

/-! ## Orchestrator (orchestrator.ts) -/

/-- The configuration fields the orchestrator reads (`Config` in utils). -/
structure Config where
  maxConcurrent : Nat
  pollInterval : Nat
  defaultTimeout : Nat
deriving DecidableEq

/-- Mutable orchestrator state (orchestrator.ts fields), together with the
suspended dispatch loops.

* `activeAgents : Map<string, string>` (agentId → taskId) — association list.
* `timeouts : Map<string, Timeout>` — the set of agent ids with an armed timer
  (the timer object itself carries no modelled state).
* `inflight` — the suspended `trySpawnAgents` loop invocations: each entry is
  the not-yet-dispatched remainder of a batch (task ids), its head having an
  executor `createAgent` call in flight. -/
structure OState where
  queue : QState
  activeAgents : List (String × String)
  timeouts : List String
  isRunning : Bool
  inflight : List (List String)
deriving DecidableEq

/-- Source `this.activeAgents.get(agentId)`. -/
def lookupAgent (l : List (String × String)) (ag : String) : Option String :=
  match l with
  | [] => none
  | p :: ps => if p.1 = ag then some p.2 else lookupAgent ps ag

/-- Source `this.activeAgents.delete(agentId)`. -/
def removeAgent (l : List (String × String)) (ag : String) : List (String × String) :=
  match l with
  | [] => []
  | p :: ps => if p.1 = ag then removeAgent ps ag else p :: removeAgent ps ag

/-- Source `private clearTimeout(agentId)`: cancel the timer and delete the map entry;
a missing entry is left as-is. -/
def eraseTimer (l : List String) (ag : String) : List String :=
  match l with
  | [] => []
  | x :: xs => if x = ag then eraseTimer xs ag else x :: eraseTimer xs ag

/-- The orchestrator's synchronous handler for the queue's `allComplete` event
(`this.queue.on('allComplete', ...)`): reset the running flag and clear all
timers.  (`stopAllMonitoring`, the `complete` emission and `stateStore.clear()`
touch no modelled state.)  Event emission is synchronous, so this runs inside
the queue operation that emitted the event; we apply it right after. -/
def applyQueueEvents (s : OState) (evs : List QEvent) : OState :=
  if QEvent.allComplete ∈ evs then { s with isRunning := false, timeouts := [] } else s

/-- The synchronous prefix of `private async trySpawnAgents()`: the
running-flag check, the free-slot computation, the batch selection
`getReadyTasks().slice(0, availableSlots)` — all executed with no intervening
suspension point.  The loop then suspends awaiting the first
`createAgent` call, so the selected batch is recorded in `inflight`. -/
def trySpawnAgents (cfg : Config) (s : OState) : OState :=
  if s.isRunning = false then s
  else if cfg.maxConcurrent - s.activeAgents.length = 0 then s
  else
    let batch := ((s.queue.getReadyTasks).take (cfg.maxConcurrent - s.activeAgents.length)).map
      Task.id
    { s with inflight := s.inflight ++ [batch] }

/-- The synchronous segment of `spawnAgent` after its `createAgent` await
resolves with a fresh agent id: bind the handle, `markRunning`, start
monitoring, arm the timeout timer.  The suspended loop continues with the rest
of its batch (its next iteration suspends again on `createAgent`). -/
def spawnOkF (s : OState) (i : Nat) (tid : String) (rest : List String) (ag : String) :
    OState :=
  let q := markRunning s.queue tid ag
  { s with activeAgents := s.activeAgents ++ [(ag, tid)],
           queue := q.1,
           timeouts := s.timeouts ++ [ag],
           inflight := s.inflight.set i rest }

/-- The `catch` branch of the `trySpawnAgents` loop, taken when `createAgent`
rejects: `this.queue.markFailed(task.id, message)` (with the default
`maxRetries = 2`), no binding and no timer; the loop continues with the rest of
the batch. -/
def spawnErrF (s : OState) (i : Nat) (tid : String) (rest : List String) (err : String) :
    OState :=
  let q := markFailed s.queue tid err 2
  applyQueueEvents { s with queue := q.1, inflight := s.inflight.set i rest } q.2

/-- Source `private handleAgentComplete(agentId, agent)`: look up the binding (ignore
the signal if there is none), unbind, disarm the timer, `markCompleted`, and
re-invoke the dispatch loop. -/
def handleAgentCompleteF (cfg : Config) (s : OState) (ag : String) (res : ResultArg)
    (now : String) : OState :=
  match lookupAgent s.activeAgents ag with
  | none => s
  | some tid =>
    let s1 : OState :=
      { s with activeAgents := removeAgent s.activeAgents ag,
               timeouts := eraseTimer s.timeouts ag }
    let q := markCompleted s1.queue tid res true now
    trySpawnAgents cfg (applyQueueEvents { s1 with queue := q.1 } q.2)

/-- Source `private handleAgentFailed(agentId, error)`: look up the binding (ignore if
none), unbind, disarm the timer, stop monitoring, `markFailed`, and re-invoke
the dispatch loop.  Also reached by the `failed` and `cancelled` client
signals. -/
def handleAgentFailedF (cfg : Config) (s : OState) (ag err : String) : OState :=
  match lookupAgent s.activeAgents ag with
  | none => s
  | some tid =>
    let s1 : OState :=
      { s with activeAgents := removeAgent s.activeAgents ag,
               timeouts := eraseTimer s.timeouts ag }
    let q := markFailed s1.queue tid err 2
    trySpawnAgents cfg (applyQueueEvents { s1 with queue := q.1 } q.2)

/-- The timeout timer callback armed by `spawnAgent`: if the handle is no
longer bound, do nothing; otherwise request executor stop (external) and route
`handleAgentFailed(agentId, 'Timeout exceeded')`. -/
def timeoutFireF (cfg : Config) (s : OState) (ag : String) : OState :=
  match lookupAgent s.activeAgents ag with
  | none => s
  | some _ => handleAgentFailedF cfg s ag "Timeout exceeded"

/-- The synchronous effect of `async stop()` up to its first await: clear the
running flag, stop all monitoring (external), cancel all timers.  The
per-agent `stopAgent` requests are external best-effort calls; bindings, task
statuses and `agentId` fields are not touched. -/
def stopF (s : OState) : OState :=
  { s with isRunning := false, timeouts := [] }

/-- Source `async start()`: reject if already running (a throw before any mutation),
otherwise set the running flag and invoke the dispatch loop. -/
def startF (cfg : Config) (s : OState) : Except String Unit × OState :=
  if s.isRunning then (.error "Orchestrator is already running", s)
  else (.ok (), trySpawnAgents cfg { s with isRunning := true })

/-- Source `async sendFollowUp(taskId, message)`: reject unless the task exists and
its `agentId` field is set (`if (!task?.agentId) throw ...`); the follow-up
call itself is external.  No orchestrator or queue state is mutated on either
branch. -/
def sendFollowUpF (s : OState) (taskId : String) : Except String Unit × OState :=
  match (s.queue.getTask taskId).bind Task.agentId with
  | none => (.error ("No active agent for task " ++ taskId), s)
  | some _ => (.ok (), s)

/-- The orchestrator state after `loadTasks` on a fresh instance: the queue
holds the loaded batch, nothing is bound, armed or running. -/
def initState (inputs : List TaskInput) (now : String) : OState :=
  { queue := (addTasks emptyQ inputs now).1,
    activeAgents := [], timeouts := [], isRunning := false, inflight := [] }

/-- Interleaved small-step semantics of a run.  Each constructor is one
synchronous segment of orchestrator code (between `await` suspension points),
or one asynchronous callback (executor signal, timer firing).  `dispatch`
models the `taskReady`-event handler `() => this.trySpawnAgents()` (the queue
emits `taskReady` synchronously during load and completion processing; the
resulting loop invocations are modelled as separately scheduled steps). -/
inductive Step (cfg : Config) : OState → OState → Prop
  | start {s : OState} (h : s.isRunning = false) :
      Step cfg s (trySpawnAgents cfg { s with isRunning := true })
  | dispatch {s : OState} :
      Step cfg s (trySpawnAgents cfg s)
  | spawnOk {s : OState} (i : Nat) (tid : String) (rest : List String) (ag : String)
      (hctx : s.inflight.get? i = some (tid :: rest))
      (hfresh : lookupAgent s.activeAgents ag = none) :
      Step cfg s (spawnOkF s i tid rest ag)
  | spawnErr {s : OState} (i : Nat) (tid : String) (rest : List String) (err : String)
      (hctx : s.inflight.get? i = some (tid :: rest)) :
      Step cfg s (spawnErrF s i tid rest err)
  | complete {s : OState} (ag : String) (res : ResultArg) (now : String) :
      Step cfg s (handleAgentCompleteF cfg s ag res now)
  | failed {s : OState} (ag err : String) :
      Step cfg s (handleAgentFailedF cfg s ag err)
  | timeoutFire {s : OState} (ag : String) (h : ag ∈ s.timeouts) :
      Step cfg s (timeoutFireF cfg s ag)
  | stop {s : OState} :
      Step cfg s (stopF s)

/-- States reachable during a run: one `loadTasks` batch, then any
interleaving of orchestrator steps. -/
def Reachable (cfg : Config) (inputs : List TaskInput) (now : String) (s : OState) : Prop :=
  Relation.ReflTransGen (Step cfg) (initState inputs now) s

/-! ### Atomic (non-interleaved) dispatch semantics

The spec reasons about the dispatch loop as if each `trySpawnAgents`
invocation ran atomically: the slot check and every `spawnAgent` of the batch
execute with no interleaved handler.  `AStep` is that semantics: a whole
dispatch-loop invocation (with an arbitrary success/rejection outcome for each
batch element) is a single step.  It is used to settle the amended form of the
concurrency-bound claim. -/

/-- Run a batch to completion atomically: for each task id, either the
executor start succeeds with the given agent id (bind, `markRunning`, arm
timer) or it rejects with the given error (`markFailed`, no binding). -/
def runBatchA : OState → List String → List (Except String String) → OState
  | s, [], _ => s
  | s, _ :: _, [] => s
  | s, tid :: rest, o :: os =>
    match o with
    | .ok ag =>
      let q := markRunning s.queue tid ag
      runBatchA
        { s with activeAgents := s.activeAgents ++ [(ag, tid)],
                 queue := q.1,
                 timeouts := s.timeouts ++ [ag] }
        rest os
    | .error e =>
      let q := markFailed s.queue tid e 2
      runBatchA (applyQueueEvents { s with queue := q.1 } q.2) rest os

/-- One atomic `trySpawnAgents` invocation: guards as in the source, then the
whole selected batch runs to completion with outcome list `outs`. -/
def dispatchA (cfg : Config) (s : OState) (outs : List (Except String String)) : OState :=
  if s.isRunning = false then s
  else if cfg.maxConcurrent - s.activeAgents.length = 0 then s
  else
    runBatchA s
      (((s.queue.getReadyTasks).take (cfg.maxConcurrent - s.activeAgents.length)).map Task.id)
      outs

/-- Atomic-dispatch small-step semantics: like `Step`, but every dispatch-loop
invocation (including the ones re-invoked from the signal handlers) runs
atomically via `dispatchA`, so no state is observed between a slot check and
the resolution of the spawns it authorised. -/
inductive AStep (cfg : Config) : OState → OState → Prop
  | start {s : OState} (h : s.isRunning = false) :
      AStep cfg s { s with isRunning := true }
  | dispatchResolve {s : OState} (outs : List (Except String String)) :
      AStep cfg s (dispatchA cfg s outs)
  | complete {s : OState} (ag : String) (res : ResultArg) (now : String) :
      AStep cfg s (handleAgentCompleteF cfg s ag res now)
  | failed {s : OState} (ag err : String) :
      AStep cfg s (handleAgentFailedF cfg s ag err)
  | timeoutFire {s : OState} (ag : String) (h : ag ∈ s.timeouts) :
      AStep cfg s (timeoutFireF cfg s ag)
  | stop {s : OState} :
      AStep cfg s (stopF s)

/-- States reachable under the atomic-dispatch semantics. -/
def AReachable (cfg : Config) (inputs : List TaskInput) (now : String) (s : OState) : Prop :=
  Relation.ReflTransGen (AStep cfg) (initState inputs now) s

/-! ## Invariants

Predicates used to state the readiness invariant (claim C4):
every task observed `ready` (or `running`) has its whole `dependsOn` set inside
the completed-ids set, and the same holds for every task id held by a
suspended dispatch batch or a live handle binding. -/

/-- All of a task's dependencies are in the completed-ids set. -/
def DepsDone (q : QState) (t : Task) : Prop :=
  ∀ d ∈ t.dependsOn, d ∈ q.completed

/-- The task stored under `id` (if any) has all dependencies completed. -/
def GoodId (q : QState) (id : String) : Prop :=
  ∀ t, q.getTask id = some t → DepsDone q t

/-- Queue-level readiness invariant: every `ready` or `running` task has all
dependencies completed. -/
def QInv (q : QState) : Prop :=
  ∀ t ∈ q.tasks, (t.status = .ready ∨ t.status = .running) → DepsDone q t

/-- Task ids are unique in the task table (maintained by `Map` semantics). -/
def UniqueIds (q : QState) : Prop :=
  (q.tasks.map Task.id).Nodup

/-- Full inductive invariant over orchestrator states. -/
def Inv (s : OState) : Prop :=
  UniqueIds s.queue ∧ QInv s.queue
  ∧ (∀ b ∈ s.inflight, ∀ id ∈ b, GoodId s.queue id)
  ∧ (∀ p ∈ s.activeAgents, GoodId s.queue p.2)

/-! ## Concrete run fragments

Small concrete runs used to evaluate the model: four independent tasks of
descending priority, a task with `retries = 1`, a task pre-marked complete,
and a dependent pair. -/

def exInputA : TaskInput := { id := "a", name := "A", prompt := "p", dependsOn := [], priority := 4 }

def exInputB : TaskInput := { id := "b", name := "B", prompt := "p", dependsOn := [], priority := 3 }

def exInputC : TaskInput := { id := "c", name := "C", prompt := "p", dependsOn := [], priority := 2 }

def exInputD : TaskInput := { id := "d", name := "D", prompt := "p", dependsOn := [], priority := 1 }

/-- A task with one configured retry. -/
def exInputR : TaskInput :=
  { id := "r", name := "R", prompt := "p", dependsOn := [], priority := 0, retries := some 1 }

/-- A task pre-marked complete at load time. -/
def exInputP : TaskInput :=
  { id := "x", name := "X", prompt := "p", dependsOn := [], priority := 0, complete := some true }

/-- A task depending on the pre-marked task `x`. -/
def exInputQ : TaskInput :=
  { id := "y", name := "Y", prompt := "p", dependsOn := ["x"], priority := 0 }

def exCfg2 : Config := { maxConcurrent := 2, pollInterval := 1, defaultTimeout := 1 }

/-- C2 scenario: load the `retries = 1` task (it becomes ready). -/
def c2q0 : QState := (addTasks emptyQ [exInputR] "t").1

/-- C2 scenario: first dispatch (`markRunning`), attempts becomes 1. -/
def c2q1 : QState := (markRunning c2q0 "r" "g1").1

/-- C2 scenario: the first attempt fails. -/
def c2q2 : QState := (markFailed c2q1 "r" "boom" 2).1

/-- C1 race trace: load A,B,C,D (maxConcurrent = 2), all ready. -/
def cxA0 : OState := initState [exInputA, exInputB, exInputC, exInputD] "t"

/-- Source `start()`: dispatch-loop invocation selects batch [a, b]. -/
def cxA1 : OState := trySpawnAgents exCfg2 { cxA0 with isRunning := true }

/-- a's executor start resolves (agent g1). -/
def cxA2 : OState := spawnOkF cxA1 0 "a" ["b"] "g1"

/-- b's executor start resolves (agent g2); both slots in use. -/
def cxA3 : OState := spawnOkF cxA2 0 "b" [] "g2"

/-- g1 signals completed: a completes, trailing dispatch selects batch [c]
(one free slot), whose `createAgent` call suspends. -/
def cxA4 : OState := handleAgentCompleteF exCfg2 cxA3 "g1" {} "t2"

/-- g2 signals completed before c's start resolves: b completes, trailing
dispatch sees c still `ready` and no bindings, selects batch [c, d]. -/
def cxA5 : OState := handleAgentCompleteF exCfg2 cxA4 "g2" {} "t3"

/-- c's first start resolves (agent g3). -/
def cxA6 : OState := spawnOkF cxA5 1 "c" [] "g3"

/-- c's second start resolves (agent g4): c double-dispatched. -/
def cxA7 : OState := spawnOkF cxA6 2 "c" ["d"] "g4"

/-- d's start resolves (agent g5): three live bindings, bound exceeded. -/
def cxA8 : OState := spawnOkF cxA7 2 "d" [] "g5"

/-- C6 trace: load A and B (both ready), maxConcurrent = 2. -/
def cxB0 : OState := initState [exInputA, exInputB] "t"

/-- Source `start()`: batch [a, b] selected. -/
def cxB1 : OState := trySpawnAgents exCfg2 { cxB0 with isRunning := true }

/-- a's start resolves (agent g1); b's `createAgent` call is in flight. -/
def cxB2 : OState := spawnOkF cxB1 0 "a" ["b"] "g1"

/-- Source `stop()` is called mid-batch. -/
def cxB3 : OState := stopF cxB2

/-- b's start nevertheless resolves and is dispatched after the stop. -/
def cxB4 : OState := spawnOkF cxB3 0 "b" [] "g2"

/-- C7 trace: load A, start, batch [a] selected. -/
def cxC0 : OState := initState [exInputA] "t"

def cxC1 : OState := trySpawnAgents exCfg2 { cxC0 with isRunning := true }

/-- a's executor start is rejected. -/
def cxC2 : OState := spawnErrF cxC1 0 "a" [] "boom"

/-- C8 trace: load A, start, dispatch a (agent g1), then g1 completes.
The task is terminal and unbound but its `agentId` field is still set. -/
def cxD0 : OState := initState [exInputA] "t"

def cxD1 : OState := trySpawnAgents exCfg2 { cxD0 with isRunning := true }

def cxD2 : OState := spawnOkF cxD1 0 "a" [] "g1"

def cxD3 : OState := handleAgentCompleteF exCfg2 cxD2 "g1" {} "t2"

/-- A state with one live binding (used to witness the stop/late-signal and
resolution-idempotence properties): load A, start, dispatch a (agent g1). -/
def exBound : OState := spawnOkF (trySpawnAgents exCfg2 { initState [exInputA] "t" with isRunning := true }) 0 "a" [] "g1"

/-- Atomic-model witness run: load A, start. -/
def wA1 : OState := { initState [exInputA] "t" with isRunning := true }

/-- Atomic-model witness run: one atomic dispatch, a starts on agent g1. -/
def wA2 : OState := dispatchA exCfg2 wA1 [Except.ok "g1"]

/-! # Theorems -/

/-! ## Basic lemmas about the association-list operations -/

theorem getTaskL_eq_id {l : List Task} {id : String} {t : Task}
    (h : getTaskL l id = some t) : t.id = id := by
  induction l with
  | nil => simp [getTaskL] at h
  | cons x xs ih =>
    by_cases hx : x.id = id
    · simp [getTaskL, hx] at h; rw [← h]; exact hx
    · simp [getTaskL, hx] at h; exact ih h

theorem getTaskL_setTask (l : List Task) (t : Task) (id : String) :
    getTaskL (setTask l t) id = if t.id = id then some t else getTaskL l id := by
  induction l with
  | nil => simp [setTask, getTaskL]
  | cons x xs ih =>
    simp only [setTask]
    by_cases hx : x.id = t.id
    · rw [if_pos hx]
      simp only [getTaskL]
      by_cases ht : t.id = id
      · rw [if_pos ht, if_pos ht]
      · rw [if_neg ht, if_neg ht, if_neg (show ¬ x.id = id from fun h => ht (hx.symm.trans h))]
    · rw [if_neg hx]
      simp only [getTaskL]
      by_cases hxid : x.id = id
      · have hne : ¬ t.id = id := fun h => hx (hxid.trans h.symm)
        rw [if_pos hxid, if_neg hne, if_pos hxid]
      · rw [if_neg hxid, ih]
        by_cases ht : t.id = id
        · rw [if_pos ht, if_pos ht]
        · rw [if_neg ht, if_neg ht, if_neg hxid]

theorem mem_setTask {l : List Task} {t u : Task} (h : u ∈ setTask l t) :
    u = t ∨ u ∈ l := by
  induction l with
  | nil => simp [setTask] at h; exact Or.inl h
  | cons x xs ih =>
    by_cases hx : x.id = t.id
    · simp [setTask, hx] at h
      rcases h with h | h
      · exact Or.inl h
      · exact Or.inr (List.mem_cons_of_mem _ h)
    · simp [setTask, hx] at h
      rcases h with h | h
      · exact Or.inr (by simp [h])
      · rcases ih h with h' | h'
        · exact Or.inl h'
        · exact Or.inr (List.mem_cons_of_mem _ h')

theorem mem_map_id_setTask {l : List Task} {t : Task} {a : String}
    (h : a ∈ (setTask l t).map Task.id) : a = t.id ∨ a ∈ l.map Task.id := by
  rcases List.mem_map.1 h with ⟨u, hu, rfl⟩
  rcases mem_setTask hu with rfl | hu'
  · exact Or.inl rfl
  · exact Or.inr (List.mem_map_of_mem _ hu')

theorem nodup_map_id_setTask {l : List Task} {t : Task}
    (h : (l.map Task.id).Nodup) : ((setTask l t).map Task.id).Nodup := by
  induction l with
  | nil => simp [setTask]
  | cons x xs ih =>
    simp only [List.map_cons, List.nodup_cons] at h
    by_cases hx : x.id = t.id
    · simp only [setTask, if_pos hx, List.map_cons, List.nodup_cons]
      exact ⟨hx ▸ h.1, h.2⟩
    · simp only [setTask, if_neg hx, List.map_cons, List.nodup_cons]
      refine ⟨fun hmem => ?_, ih h.2⟩
      rcases mem_map_id_setTask hmem with h' | h'
      · exact hx h'
      · exact h.1 h'

theorem getTaskL_of_mem {l : List Task} {t : Task} (hn : (l.map Task.id).Nodup)
    (h : t ∈ l) : getTaskL l t.id = some t := by
  induction l with
  | nil => simp at h
  | cons x xs ih =>
    simp only [List.map_cons, List.nodup_cons] at hn
    rcases List.mem_cons.1 h with rfl | h'
    · simp [getTaskL]
    · have hx : ¬ x.id = t.id := by
        intro he
        exact hn.1 (he ▸ List.mem_map_of_mem _ h')
      simp [getTaskL, hx, ih hn.2 h']

theorem lookupAgent_mem {l : List (String × String)} {ag tid : String}
    (h : lookupAgent l ag = some tid) : (ag, tid) ∈ l := by
  induction l with
  | nil => simp [lookupAgent] at h
  | cons p ps ih =>
    by_cases hp : p.1 = ag
    · simp [lookupAgent, hp] at h
      have hpe : p = (ag, tid) := by
        have hsplit : p = (p.1, p.2) := rfl
        rw [hsplit, hp, h]
      rw [hpe]
      exact List.mem_cons_self _ _
    · simp [lookupAgent, hp] at h
      exact List.mem_cons_of_mem _ (ih h)

theorem lookupAgent_removeAgent (l : List (String × String)) (ag : String) :
    lookupAgent (removeAgent l ag) ag = none := by
  induction l with
  | nil => rfl
  | cons p ps ih =>
    by_cases hp : p.1 = ag
    · simp [removeAgent, hp, ih]
    · simp [removeAgent, lookupAgent, hp, ih]

theorem mem_removeAgent {l : List (String × String)} {ag : String} {p : String × String}
    (h : p ∈ removeAgent l ag) : p ∈ l := by
  induction l with
  | nil => simp [removeAgent] at h
  | cons x xs ih =>
    by_cases hx : x.1 = ag
    · simp only [removeAgent, if_pos hx] at h
      exact List.mem_cons_of_mem _ (ih h)
    · simp only [removeAgent, if_neg hx] at h
      rcases List.mem_cons.1 h with rfl | h'
      · exact List.mem_cons_self _ _
      · exact List.mem_cons_of_mem _ (ih h')

theorem removeAgent_length_le (l : List (String × String)) (ag : String) :
    (removeAgent l ag).length ≤ l.length := by
  induction l with
  | nil => simp [removeAgent]
  | cons x xs ih =>
    by_cases hx : x.1 = ag
    · simp only [removeAgent, if_pos hx, List.length_cons]
      omega
    · simp only [removeAgent, if_neg hx, List.length_cons]
      omega

/-! ## Frame lemmas for the orchestrator state functions -/

theorem trySpawnAgents_queue (cfg : Config) (s : OState) :
    (trySpawnAgents cfg s).queue = s.queue := by
  unfold trySpawnAgents; split_ifs <;> rfl

theorem trySpawnAgents_agents (cfg : Config) (s : OState) :
    (trySpawnAgents cfg s).activeAgents = s.activeAgents := by
  unfold trySpawnAgents; split_ifs <;> rfl

theorem trySpawnAgents_timeouts (cfg : Config) (s : OState) :
    (trySpawnAgents cfg s).timeouts = s.timeouts := by
  unfold trySpawnAgents; split_ifs <;> rfl

theorem trySpawnAgents_isRunning (cfg : Config) (s : OState) :
    (trySpawnAgents cfg s).isRunning = s.isRunning := by
  unfold trySpawnAgents; split_ifs <;> rfl

theorem trySpawnAgents_of_not_running {cfg : Config} {s : OState}
    (h : s.isRunning = false) : trySpawnAgents cfg s = s := by
  unfold trySpawnAgents
  rw [if_pos h]

theorem applyQueueEvents_queue (s : OState) (evs : List QEvent) :
    (applyQueueEvents s evs).queue = s.queue := by
  unfold applyQueueEvents; split_ifs <;> rfl

theorem applyQueueEvents_agents (s : OState) (evs : List QEvent) :
    (applyQueueEvents s evs).activeAgents = s.activeAgents := by
  unfold applyQueueEvents; split_ifs <;> rfl

theorem applyQueueEvents_inflight (s : OState) (evs : List QEvent) :
    (applyQueueEvents s evs).inflight = s.inflight := by
  unfold applyQueueEvents; split_ifs <;> rfl

/-! ## Stable descending sort (`getReadyTasks`) -/

theorem insertDesc_perm (x : Task) (l : List Task) :
    List.Perm (insertDesc x l) (x :: l) := by
  induction l with
  | nil => exact List.Perm.refl _
  | cons y ys ih =>
    by_cases h : x.priority < y.priority
    · simp only [insertDesc, if_pos h]
      exact (ih.cons y).trans (List.Perm.swap x y ys)
    · simp only [insertDesc, if_neg h]
      exact List.Perm.refl _

theorem sortDesc_perm (l : List Task) : List.Perm (sortDesc l) l := by
  induction l with
  | nil => exact List.Perm.refl _
  | cons x xs ih =>
    exact (insertDesc_perm x (sortDesc xs)).trans (ih.cons x)

theorem mem_insertDesc {x a : Task} {l : List Task} :
    a ∈ insertDesc x l ↔ a = x ∨ a ∈ l := by
  rw [(insertDesc_perm x l).mem_iff, List.mem_cons]

theorem insertDesc_pairwise {x : Task} {l : List Task}
    (h : List.Pairwise (fun a b : Task => b.priority ≤ a.priority) l) :
    List.Pairwise (fun a b : Task => b.priority ≤ a.priority) (insertDesc x l) := by
  induction l with
  | nil => simp [insertDesc]
  | cons y ys ih =>
    rcases List.pairwise_cons.1 h with ⟨hy, hys⟩
    by_cases hlt : x.priority < y.priority
    · simp only [insertDesc, if_pos hlt]
      refine List.pairwise_cons.2 ⟨fun z hz => ?_, ih hys⟩
      rcases mem_insertDesc.1 hz with rfl | hz'
      · exact le_of_lt hlt
      · exact hy z hz'
    · simp only [insertDesc, if_neg hlt]
      refine List.pairwise_cons.2 ⟨fun z hz => ?_, h⟩
      rcases List.mem_cons.1 hz with rfl | hz'
      · exact le_of_not_lt hlt
      · exact le_trans (hy z hz') (le_of_not_lt hlt)

theorem sortDesc_pairwise (l : List Task) :
    List.Pairwise (fun a b : Task => b.priority ≤ a.priority) (sortDesc l) := by
  induction l with
  | nil => simp [sortDesc]
  | cons x xs ih => exact insertDesc_pairwise ih

theorem insertDesc_filter_priority (x : Task) (l : List Task) (p : Int) :
    (insertDesc x l).filter (fun t => t.priority = p)
      = if x.priority = p then x :: l.filter (fun t => t.priority = p)
        else l.filter (fun t => t.priority = p) := by
  induction l with
  | nil =>
    by_cases hxp : x.priority = p
    · simp [insertDesc, List.filter, hxp]
    · simp [insertDesc, List.filter, hxp]
  | cons y ys ih =>
    by_cases hlt : x.priority < y.priority
    · simp only [insertDesc, if_pos hlt]
      by_cases hyp : y.priority = p
      · have hxp : ¬ x.priority = p := by
          intro hx
          rw [hx, hyp] at hlt
          exact lt_irrefl p hlt
        simp [List.filter_cons, hyp, hxp, ih]
      · simp [List.filter_cons, hyp, ih]
    · simp only [insertDesc, if_neg hlt]
      by_cases hxp : x.priority = p
      · simp [List.filter_cons, hxp]
      · simp [List.filter_cons, hxp]

theorem sortDesc_filter_priority (l : List Task) (p : Int) :
    (sortDesc l).filter (fun t => t.priority = p) = l.filter (fun t => t.priority = p) := by
  induction l with
  | nil => rfl
  | cons x xs ih =>
    rw [sortDesc, insertDesc_filter_priority]
    by_cases hxp : x.priority = p
    · simp [List.filter_cons, hxp, ih]
    · simp [List.filter_cons, hxp, ih]

/-- Claim C9 (confirmed). `getReadyTasks()` returns exactly the tasks whose
status is `ready` (as a permutation of — and with the same membership as — the
ready-filtered task table), in non-increasing (descending) priority order,
and stably: for every priority value, the equal-priority tasks appear in
exactly their task-table (= insertion) order.  This is the behaviour of the
stable `Array.prototype.sort` with comparator `(a, b) => b.priority - a.priority`
over the insertion-ordered `Map` values. -/
theorem c9_getReadyTasks_sorted_stable (q : QState) :
    List.Perm q.getReadyTasks (q.tasks.filter (fun t => t.status = TaskStatus.ready))
    ∧ (∀ t : Task, t ∈ q.getReadyTasks ↔ t ∈ q.tasks ∧ t.status = TaskStatus.ready)
    ∧ List.Pairwise (fun a b : Task => b.priority ≤ a.priority) q.getReadyTasks
    ∧ ∀ p : Int,
        q.getReadyTasks.filter (fun t => t.priority = p)
          = (q.tasks.filter (fun t => t.status = TaskStatus.ready)).filter
              (fun t => t.priority = p) := by
  refine ⟨sortDesc_perm _, fun t => ?_, sortDesc_pairwise _, fun p => sortDesc_filter_priority _ p⟩
  unfold QState.getReadyTasks
  rw [(sortDesc_perm _).mem_iff, List.mem_filter]
  simp

/-! ## `allComplete` emission (C3) -/

theorem allComplete_not_mem_updateReadyTasksL (c : List String) (l : List Task) :
    QEvent.allComplete ∉ (updateReadyTasksL c l).2 := by
  induction l with
  | nil => simp [updateReadyTasksL]
  | cons t ts ih =>
    simp only [updateReadyTasksL]
    split_ifs
    · simp only [List.mem_cons]
      rintro (h | h)
      · exact QEvent.noConfusion h
      · exact ih h
    · exact ih

theorem allComplete_not_mem_updateReadyTasks (q : QState) :
    QEvent.allComplete ∉ (updateReadyTasks q).2 :=
  allComplete_not_mem_updateReadyTasksL q.completed q.tasks

theorem allComplete_mem_checkAllComplete {q : QState}
    (h : QEvent.allComplete ∈ checkAllComplete q) : allDone q = true := by
  unfold checkAllComplete at h
  split_ifs at h with hd
  · exact hd
  · simp at h

theorem markCompleted_allComplete_allDone (q : QState) (id : String) (res : ResultArg)
    (chk : Bool) (now : String)
    (h : QEvent.allComplete ∈ (markCompleted q id res chk now).2) :
    allDone (markCompleted q id res chk now).1 = true := by
  cases hq : q.getTask id with
  | none => simp [markCompleted, hq] at h
  | some t =>
    simp only [markCompleted, hq] at h ⊢
    rcases List.mem_cons.1 h with h' | h'
    · exact absurd h' (by simp)
    · rcases List.mem_append.1 h' with h'' | h''
      · exact absurd h'' (allComplete_not_mem_updateReadyTasks _)
      · cases chk with
        | false => simp at h''
        | true =>
          rw [if_pos rfl] at h''
          exact allComplete_mem_checkAllComplete h''

theorem markCompleted_nocheck_no_allComplete (q : QState) (id : String) (res : ResultArg)
    (now : String) : QEvent.allComplete ∉ (markCompleted q id res false now).2 := by
  cases hq : q.getTask id with
  | none => simp [markCompleted, hq]
  | some t =>
    simp only [markCompleted, hq]
    intro h
    rcases List.mem_cons.1 h with h' | h'
    · exact QEvent.noConfusion h'
    · rcases List.mem_append.1 h' with h'' | h''
      · exact allComplete_not_mem_updateReadyTasks _ h''
      · simp at h''

theorem markFailed_allComplete_allDone (q : QState) (id err : String) (mr : Nat)
    (h : QEvent.allComplete ∈ (markFailed q id err mr).2) :
    allDone (markFailed q id err mr).1 = true := by
  cases hq : q.getTask id with
  | none => simp [markFailed, hq] at h
  | some t =>
    simp only [markFailed, hq] at h ⊢
    split_ifs at h ⊢ with hr
    · simp at h
    · rcases List.mem_cons.1 h with h' | h'
      · exact absurd h' (by simp)
      · exact allComplete_mem_checkAllComplete h'

theorem markRunning_no_allComplete (q : QState) (id ag : String) :
    QEvent.allComplete ∉ (markRunning q id ag).2 := by
  unfold markRunning
  cases hq : q.getTask id with
  | none => simp
  | some t => simp

theorem addTasksGo_no_allComplete (now : String) (q : QState) (evs : List QEvent)
    (inputs : List TaskInput) (h : QEvent.allComplete ∉ evs) :
    QEvent.allComplete ∉ (addTasksGo now q evs inputs).2 := by
  induction inputs generalizing q evs with
  | nil => exact h
  | cons i rest ih =>
    simp only [addTasksGo]
    split_ifs
    · refine ih _ _ ?_
      simp only [List.mem_append]
      rintro (h' | h')
      · exact h h'
      · exact markCompleted_nocheck_no_allComplete _ _ _ _ h'
    · exact ih _ _ h

theorem addTasks_no_allComplete (q : QState) (inputs : List TaskInput) (now : String) :
    QEvent.allComplete ∉ (addTasks q inputs now).2 := by
  unfold addTasks
  simp only [List.mem_append]
  rintro (h | h)
  · exact addTasksGo_no_allComplete now q [] inputs (by simp) h
  · exact allComplete_not_mem_updateReadyTasks _ h

/-- Claim C3 (corrected — amended form).  The `allComplete` signal is emitted
only at a moment when every task's status is terminal: whenever
`markCompleted` or `markFailed` emits it, every task of the resulting state is
`completed` or `failed`; `markRunning` and `addTasks` never emit it.  In
particular a load whose tasks are all pre-marked complete emits no
`allComplete` at all (the load-time completion path passes
`checkComplete = false`), which is what refutes the original "exactly once"
claim. -/
theorem c3_allComplete_only_when_terminal :
    (∀ (q : QState) (inputs : List TaskInput) (now : String),
        QEvent.allComplete ∉ (addTasks q inputs now).2)
    ∧ (∀ (q : QState) (id : String) (res : ResultArg) (chk : Bool) (now : String),
        QEvent.allComplete ∈ (markCompleted q id res chk now).2 →
          allDone (markCompleted q id res chk now).1 = true)
    ∧ (∀ (q : QState) (id err : String) (mr : Nat),
        QEvent.allComplete ∈ (markFailed q id err mr).2 →
          allDone (markFailed q id err mr).1 = true)
    ∧ (∀ (q : QState) (id ag : String), QEvent.allComplete ∉ (markRunning q id ag).2) :=
  ⟨addTasks_no_allComplete, markCompleted_allComplete_allDone,
   markFailed_allComplete_allDone, markRunning_no_allComplete⟩

/-- Claim C3 counterexample.  A run whose single loaded task is pre-marked
complete: after `addTasks` every task is terminal, yet no `allComplete` was
emitted — and no task is ready, so nothing in the rest of the run can ever
emit one.  The claim's "emitted exactly once … includes runs in which every
loaded task is pre-marked complete" is therefore false (it fires zero
times). -/
theorem c3_counterexample :
    QEvent.allComplete ∉ (addTasks emptyQ [exInputP] "t").2
    ∧ allDone (addTasks emptyQ [exInputP] "t").1 = true
    ∧ (initState [exInputP] "t").queue.getReadyTasks = [] := by
  refine ⟨by decide, by decide, by decide⟩

/-- Claim C3 witness: applying the amended theorem at a concrete terminal
failure that does emit `allComplete`. -/
theorem c3_witness :
    QEvent.allComplete ∈ (markFailed c2q1 "r" "boom" 2).2
    ∧ allDone (markFailed c2q1 "r" "boom" 2).1 = true :=
  ⟨by decide, c3_allComplete_only_when_terminal.2.2.1 c2q1 "r" "boom" 2 (by decide)⟩

/-- Claim C2 (code bug).  Concrete evaluation of the retry policy at the claim's
failing input: a task with `retries = 1` is dispatched once (`attempts = 1`)
and its first failure already drives it to terminal `failed` with
`attempts = 1`, because `markFailed` retries only while
`attempts < retries` — so a task never reaches `attempts = R + 1`; it
terminally fails at `attempts = R` (zero retries for `R = 1`), contradicting
the claim (and spec scenario 3, and the README's "retries — max retry
attempts"). -/
theorem c2_code_bug_eval :
    (c2q0.getTask "r").map Task.retries = some (some 1)
    ∧ (c2q0.getTask "r").map Task.status = some TaskStatus.ready
    ∧ (c2q1.getTask "r").map Task.attempts = some 1
    ∧ (c2q2.getTask "r").map Task.status = some TaskStatus.failed
    ∧ (c2q2.getTask "r").map Task.attempts = some 1 := by
  decide

/-! ## Resolution idempotence and the stop frame (C5, C10) -/

/-- Claim C5 (confirmed).  Every resolution handler begins by looking up (and,
when found, removing) the handle binding; hence once one resolution handler
has removed the binding, each of the three handlers (completion signal,
failure/cancellation signal, timeout firing) is a complete no-op for that
handle — no task status, binding, or timer changes — regardless of order. -/
theorem c5_resolution_idempotent (cfg : Config) (s : OState) (ag : String)
    (res : ResultArg) (now err : String)
    (h : lookupAgent s.activeAgents ag = none) :
    handleAgentCompleteF cfg s ag res now = s
    ∧ handleAgentFailedF cfg s ag err = s
    ∧ timeoutFireF cfg s ag = s
    ∧ (∀ (s' : OState) (tid : String), lookupAgent s'.activeAgents ag = some tid →
        lookupAgent (handleAgentCompleteF cfg s' ag res now).activeAgents ag = none
        ∧ lookupAgent (handleAgentFailedF cfg s' ag err).activeAgents ag = none) := by
  refine ⟨?_, ?_, ?_, fun s' tid h' => ⟨?_, ?_⟩⟩
  · simp [handleAgentCompleteF, h]
  · simp [handleAgentFailedF, h]
  · simp [timeoutFireF, h]
  · simp only [handleAgentCompleteF, h', trySpawnAgents_agents, applyQueueEvents_agents]
    exact lookupAgent_removeAgent _ _
  · simp only [handleAgentFailedF, h', trySpawnAgents_agents, applyQueueEvents_agents]
    exact lookupAgent_removeAgent _ _

/-- Claim C5 witness: on a state with no binding for handle g9, the completion
handler is a no-op. -/
theorem c5_witness :
    lookupAgent (initState [exInputA] "t").activeAgents "g9" = none
    ∧ handleAgentCompleteF exCfg2 (initState [exInputA] "t") "g9" {} "t2"
        = initState [exInputA] "t" :=
  ⟨by decide,
   (c5_resolution_idempotent exCfg2 (initState [exInputA] "t") "g9" {} "t2" "e" (by decide)).1⟩

/-- Claim C10 (confirmed).  `stop()` clears the timer table and the run flag but
leaves the binding table and the whole task table (statuses, `agentId` fields)
unchanged; consequently a completed/failed/cancelled signal arriving after
`stop()` for a still-bound handle still unbinds it and still drives the
`markCompleted` / `markFailed` transition of the bound task. -/
theorem c10_stop_frame (cfg : Config) (s : OState) (ag tid : String) (res : ResultArg)
    (err now : String) :
    (stopF s).activeAgents = s.activeAgents
    ∧ (stopF s).queue = s.queue
    ∧ (stopF s).timeouts = []
    ∧ (stopF s).isRunning = false
    ∧ (lookupAgent s.activeAgents ag = some tid →
        lookupAgent (handleAgentCompleteF cfg (stopF s) ag res now).activeAgents ag = none
        ∧ (handleAgentCompleteF cfg (stopF s) ag res now).queue
            = (markCompleted s.queue tid res true now).1
        ∧ lookupAgent (handleAgentFailedF cfg (stopF s) ag err).activeAgents ag = none
        ∧ (handleAgentFailedF cfg (stopF s) ag err).queue
            = (markFailed s.queue tid err 2).1) := by
  refine ⟨rfl, rfl, rfl, rfl, fun h => ?_⟩
  have hs : lookupAgent (stopF s).activeAgents ag = some tid := h
  refine ⟨?_, ?_, ?_, ?_⟩
  · simp only [handleAgentCompleteF, hs, trySpawnAgents_agents, applyQueueEvents_agents]
    exact lookupAgent_removeAgent _ _
  · simp only [handleAgentCompleteF, hs, trySpawnAgents_queue, applyQueueEvents_queue]
    rfl
  · simp only [handleAgentFailedF, hs, trySpawnAgents_agents, applyQueueEvents_agents]
    exact lookupAgent_removeAgent _ _
  · simp only [handleAgentFailedF, hs, trySpawnAgents_queue, applyQueueEvents_queue]
    rfl

/-- Claim C10 witness: a concrete bound state; stopping and then receiving the
completion signal still completes the task. -/
theorem c10_witness :
    lookupAgent exBound.activeAgents "g1" = some "a"
    ∧ (handleAgentCompleteF exCfg2 (stopF exBound) "g1" {} "t2").queue
        = (markCompleted exBound.queue "a" {} true "t2").1 :=
  ⟨by decide,
   ((c10_stop_frame exCfg2 exBound "g1" "a" {} "e" "t2").2.2.2.2 (by decide)).2.1⟩

/-! ## Run-control guards (C8) -/

/-- Claim C8 (corrected — amended form).  `start()` on a running instance is
rejected with a descriptive error before any mutation, and `sendFollowUp`
never mutates state; but `sendFollowUp` is rejected exactly when the task is
absent or its `agentId` *field* is unset — the check is on the task's recorded
`agentId`, not on a live binding, so a task whose handle has already been
unbound (e.g. after completing) is *not* rejected. -/
theorem c8_guards (cfg : Config) (s : OState) (taskId : String) :
    (s.isRunning = true → startF cfg s = (Except.error "Orchestrator is already running", s))
    ∧ (sendFollowUpF s taskId).2 = s
    ∧ ((∃ e, (sendFollowUpF s taskId).1 = Except.error e)
        ↔ (s.queue.getTask taskId).bind Task.agentId = none) := by
  refine ⟨fun h => by simp [startF, h], ?_, ?_⟩
  · unfold sendFollowUpF
    rcases (s.queue.getTask taskId).bind Task.agentId with _ | a <;> rfl
  · rcases hb : (s.queue.getTask taskId).bind Task.agentId with _ | a
    · simp [sendFollowUpF, hb]
    · simp [sendFollowUpF, hb]

/-- Claim C8 witness: `start()` on a concrete running state is rejected. -/
theorem c8_witness :
    cxD1.isRunning = true
    ∧ startF exCfg2 cxD1 = (Except.error "Orchestrator is already running", cxD1) :=
  ⟨by decide, (c8_guards exCfg2 cxD1 "a").1 (by decide)⟩

/-- Claim C8 counterexample.  Reachable state in which task a has completed and
its handle has been unbound (no live binding exists), yet `sendFollowUp` for
it is *not* rejected, because the task's `agentId` field still holds the stale
handle — refuting "sendFollowUp … for any task that does not currently have a
bound (live) executor handle … rejected immediately". -/
theorem c8_counterexample :
    Reachable exCfg2 [exInputA] "t" cxD3
    ∧ cxD3.activeAgents = []
    ∧ (cxD3.queue.getTask "a").map Task.agentId = some (some "g1")
    ∧ (cxD3.queue.getTask "a").map Task.status = some TaskStatus.completed
    ∧ (sendFollowUpF cxD3 "a").1 = Except.ok () := by
  refine ⟨?_, by decide, by decide, by decide, rfl⟩
  have h1 : Step exCfg2 cxD0 cxD1 := Step.start (by decide)
  have h2 : Step exCfg2 cxD1 cxD2 := Step.spawnOk 0 "a" [] "g1" (by decide) (by decide)
  have h3 : Step exCfg2 cxD2 cxD3 := Step.complete "g1" {} "t2"
  exact Relation.ReflTransGen.tail
    (Relation.ReflTransGen.tail (Relation.ReflTransGen.tail Relation.ReflTransGen.refl h1) h2) h3

/-! ## Dispatch-loop guard placement (C6) -/

/-- Claim C6 (corrected — amended form).  The running flag and the free-slot
count are checked once, at the start of a dispatch-loop invocation (a
not-running invocation and a no-free-slot invocation select nothing); the
per-item spawn resolutions of an already-selected batch never consult the
running flag (`spawnOkF` commutes with setting it), so a stop requested
mid-batch does not prevent the dispatch of the batch's remaining items. -/
theorem c6_guards_once (cfg : Config) (s : OState) (i : Nat) (tid : String)
    (rest : List String) (ag : String) :
    (s.isRunning = false → trySpawnAgents cfg s = s)
    ∧ (cfg.maxConcurrent - s.activeAgents.length = 0 → trySpawnAgents cfg s = s)
    ∧ (∀ b : Bool, spawnOkF { s with isRunning := b } i tid rest ag
        = { spawnOkF s i tid rest ag with isRunning := b }) := by
  refine ⟨fun h => trySpawnAgents_of_not_running h, fun h => ?_, fun b => rfl⟩
  unfold trySpawnAgents
  by_cases h1 : s.isRunning = false
  · rw [if_pos h1]
  · rw [if_neg h1, if_pos h]

/-- Claim C6 witness: the guard applied at the concrete stopped state of the
counterexample trace. -/
theorem c6_witness :
    cxB3.isRunning = false ∧ trySpawnAgents exCfg2 cxB3 = cxB3 :=
  ⟨by decide, (c6_guards_once exCfg2 cxB3 0 "b" [] "g2").1 (by decide)⟩

/-- Claim C6 counterexample.  A reachable state in which `stop()` was called
while batch [a, b] was mid-dispatch (a spawned, b's executor start in
flight): the run has left the running state, yet the very next step dispatches
the batch's remaining task b (`markRunning`, binding created), because the
loop checks the running flag only once per invocation — refuting "none of
that same batch's remaining ready tasks is dispatched". -/
theorem c6_counterexample :
    Reachable exCfg2 [exInputA, exInputB] "t" cxB3
    ∧ cxB3.isRunning = false
    ∧ cxB3.inflight = [["b"]]
    ∧ Step exCfg2 cxB3 cxB4
    ∧ (cxB4.queue.getTask "b").map Task.status = some TaskStatus.running
    ∧ lookupAgent cxB4.activeAgents "g2" = some "b" := by
  refine ⟨?_, by decide, by decide,
    Step.spawnOk 0 "b" [] "g2" (by decide) (by decide), by decide, by decide⟩
  have h1 : Step exCfg2 cxB0 cxB1 := Step.start (by decide)
  have h2 : Step exCfg2 cxB1 cxB2 := Step.spawnOk 0 "a" ["b"] "g1" (by decide) (by decide)
  have h3 : Step exCfg2 cxB2 cxB3 := Step.stop
  exact Relation.ReflTransGen.tail
    (Relation.ReflTransGen.tail (Relation.ReflTransGen.tail Relation.ReflTransGen.refl h1) h2) h3

/-! ## Rejected executor starts (C7) -/

/-- Claim C7 (corrected — amended form).  When the executor rejects a start
request, the task is routed into the normal failure/retry path
(`markFailed` with the orchestrator's default of 2: retry if
`attempts < retries ?? 2`, else terminal `failed`, error recorded), no binding
and no timer is created for it (the timer table can only have been cleared
wholesale by a synchronous `allComplete`, never extended), and the suspended
loop continues with exactly the remaining items of the batch.  However the
`attempts` counter is *not* incremented — a rejected dispatch is not counted
as an attempt, contrary to the original claim. -/
theorem c7_spawn_reject (s : OState) (i : Nat) (tid : String) (rest : List String)
    (err : String) (hctx : s.inflight.get? i = some (tid :: rest)) :
    (spawnErrF s i tid rest err).activeAgents = s.activeAgents
    ∧ ((spawnErrF s i tid rest err).timeouts = s.timeouts
        ∨ (spawnErrF s i tid rest err).timeouts = [])
    ∧ (spawnErrF s i tid rest err).inflight = s.inflight.set i rest
    ∧ (∀ t : Task, s.queue.getTask tid = some t →
        ∃ t' : Task, (spawnErrF s i tid rest err).queue.getTask tid = some t'
          ∧ t'.attempts = t.attempts
          ∧ t'.error = some err
          ∧ (t.attempts < t.retries.getD 2 → t'.status = TaskStatus.ready)
          ∧ (¬ t.attempts < t.retries.getD 2 → t'.status = TaskStatus.failed)) := by
  refine ⟨by simp [spawnErrF, applyQueueEvents_agents], ?_, ?_, ?_⟩
  · simp only [spawnErrF, applyQueueEvents]
    split_ifs
    · exact Or.inr rfl
    · exact Or.inl rfl
  · simp [spawnErrF, applyQueueEvents_inflight]
  · intro t ht
    have hid : t.id = tid := getTaskL_eq_id ht
    simp only [spawnErrF, applyQueueEvents_queue]
    simp only [markFailed, QState.getTask] at ht ⊢
    simp only [ht]
    split_ifs with hr
    · refine ⟨{ t with error := some err, status := TaskStatus.ready }, ?_,
        rfl, rfl, fun _ => rfl, fun hc => absurd hr hc⟩
      rw [getTaskL_setTask]
      exact if_pos hid
    · refine ⟨{ t with error := some err, status := TaskStatus.failed }, ?_,
        rfl, rfl, fun hc => absurd hc hr, fun _ => rfl⟩
      rw [getTaskL_setTask]
      exact if_pos hid

/-- Claim C7 witness: the amended theorem applied at the concrete rejected
dispatch of the counterexample trace. -/
theorem c7_witness :
    cxC1.inflight.get? 0 = some ["a"]
    ∧ (spawnErrF cxC1 0 "a" [] "boom").inflight = cxC1.inflight.set 0 [] :=
  ⟨by decide, (c7_spawn_reject cxC1 0 "a" [] "boom" (by decide)).2.2.1⟩

/-- Claim C7 counterexample.  Reachable state after the executor rejected task
a's start request: the task was routed to retry (`ready`, error recorded), but
its `attempts` counter is still 0 — the rejected dispatch was not counted,
refuting "the rejection counted as one failed dispatch attempt (so its
attempts counter reflects the rejected dispatch)". -/
theorem c7_counterexample :
    Reachable exCfg2 [exInputA] "t" cxC2
    ∧ (cxC2.queue.getTask "a").map Task.attempts = some 0
    ∧ (cxC2.queue.getTask "a").map Task.status = some TaskStatus.ready
    ∧ (cxC2.queue.getTask "a").map Task.error = some (some "boom") := by
  refine ⟨?_, by decide, by decide, by decide⟩
  have h1 : Step exCfg2 cxC0 cxC1 := Step.start (by decide)
  have h2 : Step exCfg2 cxC1 cxC2 := Step.spawnErr 0 "a" [] "boom" (by decide)
  exact Relation.ReflTransGen.tail
    (Relation.ReflTransGen.tail Relation.ReflTransGen.refl h1) h2

/-! ## The concurrency bound (C1) -/

theorem runBatchA_agents_le (s : OState) (ids : List String)
    (outs : List (Except String String)) :
    (runBatchA s ids outs).activeAgents.length ≤ s.activeAgents.length + ids.length := by
  induction ids generalizing s outs with
  | nil => simp [runBatchA]
  | cons tid rest ih =>
    cases outs with
    | nil => simp [runBatchA]
    | cons o os =>
      cases o with
      | ok ag =>
        simp only [runBatchA]
        have h := ih
          { s with
            activeAgents := s.activeAgents ++ [(ag, tid)],
            queue := (markRunning s.queue tid ag).1,
            timeouts := s.timeouts ++ [ag] } os
        simp only [List.length_append, List.length_cons, List.length_nil] at h ⊢
        omega
      | error e =>
        simp only [runBatchA]
        have h := ih (applyQueueEvents { s with queue := (markFailed s.queue tid e 2).1 }
          (markFailed s.queue tid e 2).2) os
        rw [applyQueueEvents_agents] at h
        simp only [List.length_cons] at h ⊢
        omega

theorem dispatchA_agents_le (cfg : Config) (s : OState) (outs : List (Except String String))
    (h : s.activeAgents.length ≤ cfg.maxConcurrent) :
    (dispatchA cfg s outs).activeAgents.length ≤ cfg.maxConcurrent := by
  unfold dispatchA
  split_ifs with h1 h2
  · exact h
  · exact h
  · have hb := runBatchA_agents_le s
      (((s.queue.getReadyTasks).take (cfg.maxConcurrent - s.activeAgents.length)).map Task.id)
      outs
    have hlen : (((s.queue.getReadyTasks).take
        (cfg.maxConcurrent - s.activeAgents.length)).map Task.id).length
          ≤ cfg.maxConcurrent - s.activeAgents.length := by
      rw [List.length_map, List.length_take]
      exact min_le_left _ _
    omega

theorem handleAgentCompleteF_agents_le (cfg : Config) (s : OState) (ag : String)
    (res : ResultArg) (now : String) :
    (handleAgentCompleteF cfg s ag res now).activeAgents.length
      ≤ s.activeAgents.length := by
  unfold handleAgentCompleteF
  cases hq : lookupAgent s.activeAgents ag with
  | none => exact Nat.le_refl _
  | some tid =>
    simp only [trySpawnAgents_agents, applyQueueEvents_agents]
    exact removeAgent_length_le _ _

theorem handleAgentFailedF_agents_le (cfg : Config) (s : OState) (ag err : String) :
    (handleAgentFailedF cfg s ag err).activeAgents.length ≤ s.activeAgents.length := by
  unfold handleAgentFailedF
  cases hq : lookupAgent s.activeAgents ag with
  | none => exact Nat.le_refl _
  | some tid =>
    simp only [trySpawnAgents_agents, applyQueueEvents_agents]
    exact removeAgent_length_le _ _

theorem timeoutFireF_agents_le (cfg : Config) (s : OState) (ag : String) :
    (timeoutFireF cfg s ag).activeAgents.length ≤ s.activeAgents.length := by
  unfold timeoutFireF
  cases hq : lookupAgent s.activeAgents ag with
  | none => exact Nat.le_refl _
  | some tid => exact handleAgentFailedF_agents_le _ _ _ _

/-- Claim C1 (corrected — amended form).  Under the atomic-dispatch semantics —
each dispatch-loop invocation's slot check and executor starts execute with no
interleaved handler, which is how the single-threaded spec reasons about the
loop — the number of live handle bindings never exceeds the configured
`maxConcurrent`: each invocation selects at most `maxConcurrent - bindings`
tasks and every other transition only removes or preserves bindings.  (The
unrestricted interleaved semantics violates the bound; see the
counterexample.) -/
theorem c1_bound_atomic (cfg : Config) (inputs : List TaskInput) (now : String)
    (s : OState) (h : AReachable cfg inputs now s) :
    s.activeAgents.length ≤ cfg.maxConcurrent := by
  unfold AReachable at h
  induction h with
  | refl => exact Nat.zero_le _
  | tail hr hstep ih =>
    cases hstep with
    | start h1 => exact ih
    | dispatchResolve outs => exact dispatchA_agents_le _ _ outs ih
    | complete ag res now2 => exact le_trans (handleAgentCompleteF_agents_le _ _ _ _ _) ih
    | failed ag err => exact le_trans (handleAgentFailedF_agents_le _ _ _ _) ih
    | timeoutFire ag h1 => exact le_trans (timeoutFireF_agents_le _ _ _) ih
    | stop => exact ih

/-- Claim C1 witness: a concrete atomic run (load a, start, one dispatch that
binds agent g1) satisfying the bound. -/
theorem c1_bound_atomic_witness :
    AReachable exCfg2 [exInputA] "t" wA2
    ∧ wA2.activeAgents.length ≤ exCfg2.maxConcurrent := by
  have h : AReachable exCfg2 [exInputA] "t" wA2 :=
    Relation.ReflTransGen.tail
      (Relation.ReflTransGen.tail Relation.ReflTransGen.refl (AStep.start (by decide)))
      (AStep.dispatchResolve [Except.ok "g1"])
  exact ⟨h, c1_bound_atomic exCfg2 [exInputA] "t" wA2 h⟩

/-- Claim C1 counterexample.  Under the real interleaved semantics the bound is
violated: with `maxConcurrent = 2`, tasks a and b run; a and b complete while
c's and d's executor starts are still in flight, so each completion handler's
trailing dispatch re-selects the still-`ready` task c.  All three in-flight
starts then resolve, leaving three live bindings (g3, g4 on the
double-dispatched c, g5 on d) — refuting "at most maxConcurrent live
bindings at every instant, across every interleaving". -/
theorem c1_counterexample :
    Reachable exCfg2 [exInputA, exInputB, exInputC, exInputD] "t" cxA8
    ∧ cxA8.activeAgents.length = 3
    ∧ exCfg2.maxConcurrent = 2 := by
  refine ⟨?_, by decide, by decide⟩
  have h1 : Step exCfg2 cxA0 cxA1 := Step.start (by decide)
  have h2 : Step exCfg2 cxA1 cxA2 := Step.spawnOk 0 "a" ["b"] "g1" (by decide) (by decide)
  have h3 : Step exCfg2 cxA2 cxA3 := Step.spawnOk 0 "b" [] "g2" (by decide) (by decide)
  have h4 : Step exCfg2 cxA3 cxA4 := Step.complete "g1" {} "t2"
  have h5 : Step exCfg2 cxA4 cxA5 := Step.complete "g2" {} "t3"
  have h6 : Step exCfg2 cxA5 cxA6 := Step.spawnOk 1 "c" [] "g3" (by decide) (by decide)
  have h7 : Step exCfg2 cxA6 cxA7 := Step.spawnOk 2 "c" ["d"] "g4" (by decide) (by decide)
  have h8 : Step exCfg2 cxA7 cxA8 := Step.spawnOk 2 "d" [] "g5" (by decide) (by decide)
  exact Relation.ReflTransGen.tail (Relation.ReflTransGen.tail (Relation.ReflTransGen.tail
    (Relation.ReflTransGen.tail (Relation.ReflTransGen.tail (Relation.ReflTransGen.tail
    (Relation.ReflTransGen.tail (Relation.ReflTransGen.tail Relation.ReflTransGen.refl
    h1) h2) h3) h4) h5) h6) h7) h8

/-! ## The readiness invariant (C4) -/

theorem mem_addCompleted {c : List String} {d : String} (id : String) (h : d ∈ c) :
    d ∈ addCompleted c id := by
  unfold addCompleted
  split_ifs with hc
  · exact h
  · exact List.mem_append_left _ h

theorem promoteReady_id (c : List String) (t : Task) : (promoteReady c t).id = t.id := by
  unfold promoteReady; split_ifs <;> rfl

theorem promoteReady_dependsOn (c : List String) (t : Task) :
    (promoteReady c t).dependsOn = t.dependsOn := by
  unfold promoteReady; split_ifs <;> rfl

theorem updateReadyTasksL_fst (c : List String) (l : List Task) :
    (updateReadyTasksL c l).1 = l.map (promoteReady c) := by
  induction l with
  | nil => rfl
  | cons t ts ih =>
    simp only [updateReadyTasksL, List.map_cons]
    split_ifs with h
    · simp only [promoteReady, if_pos h, ih]
    · simp only [promoteReady, if_neg h, ih]

theorem updateReadyTasks_tasks (q : QState) :
    (updateReadyTasks q).1.tasks = q.tasks.map (promoteReady q.completed) := by
  simp [updateReadyTasks, updateReadyTasksL_fst]

theorem getTaskL_map_promote (c : List String) (l : List Task) (id : String) :
    getTaskL (l.map (promoteReady c)) id = (getTaskL l id).map (promoteReady c) := by
  induction l with
  | nil => rfl
  | cons t ts ih =>
    simp only [List.map_cons, getTaskL, promoteReady_id]
    split_ifs with h
    · rfl
    · exact ih

theorem map_id_map_promote (c : List String) (l : List Task) :
    (l.map (promoteReady c)).map Task.id = l.map Task.id := by
  induction l with
  | nil => rfl
  | cons t ts ih => simp [promoteReady_id, ih]

theorem mem_getReadyTasks {q : QState} {t : Task} (h : t ∈ q.getReadyTasks) :
    t ∈ q.tasks ∧ t.status = TaskStatus.ready := by
  unfold QState.getReadyTasks at h
  have h' := (sortDesc_perm _).mem_iff.1 h
  rw [List.mem_filter] at h'
  exact ⟨h'.1, by simpa using h'.2⟩

theorem uniqueIds_updateReadyTasks {q : QState} (h : UniqueIds q) :
    UniqueIds (updateReadyTasks q).1 := by
  unfold UniqueIds at h ⊢
  rw [updateReadyTasks_tasks, map_id_map_promote]
  exact h

theorem qInv_updateReadyTasks {q : QState} (hQ : QInv q) : QInv (updateReadyTasks q).1 := by
  intro u hu hst
  rw [updateReadyTasks_tasks] at hu
  rcases List.mem_map.1 hu with ⟨v, hv, rfl⟩
  by_cases hvp : v.status = TaskStatus.pending ∧ depsComplete q.completed v
  · intro d hd
    rw [promoteReady_dependsOn] at hd
    exact hvp.2 d hd
  · simp only [promoteReady, if_neg hvp] at hst ⊢
    exact fun d hd => hQ v hv hst d hd

theorem goodId_updateReadyTasks {q : QState} (id' : String) (h : GoodId q id') :
    GoodId (updateReadyTasks q).1 id' := by
  intro u hu
  rw [QState.getTask, updateReadyTasks_tasks, getTaskL_map_promote] at hu
  rcases Option.map_eq_some'.1 hu with ⟨v, hv, rfl⟩
  intro d hd
  rw [promoteReady_dependsOn] at hd
  exact h v hv d hd

theorem uniqueIds_markRunning (q : QState) (id ag : String) (h : UniqueIds q) :
    UniqueIds (markRunning q id ag).1 := by
  cases hq : q.getTask id with
  | none => simpa [markRunning, hq] using h
  | some t =>
    simp only [markRunning, hq]
    exact nodup_map_id_setTask h

theorem qInv_markRunning {q : QState} {id : String} (ag : String)
    (hQ : QInv q) (hid : GoodId q id) : QInv (markRunning q id ag).1 := by
  cases hq : q.getTask id with
  | none => simp only [markRunning, hq]; exact hQ
  | some t =>
    simp only [markRunning, hq]
    intro u hu hst
    rcases mem_setTask hu with rfl | hu'
    · exact fun d hd => hid t hq d hd
    · exact fun d hd => hQ u hu' hst d hd

theorem goodId_markRunning {q : QState} {id : String} (ag id' : String)
    (h : GoodId q id') (hid : GoodId q id) : GoodId (markRunning q id ag).1 id' := by
  cases hq : q.getTask id with
  | none => simp only [markRunning, hq]; exact h
  | some t =>
    simp only [markRunning, hq]
    intro u hu
    simp only [QState.getTask] at hu
    rw [getTaskL_setTask] at hu
    split_ifs at hu with hcase
    · cases hu
      exact fun d hd => hid t hq d hd
    · exact fun d hd => h u hu d hd

theorem markFailed_cases (q : QState) (id err : String) (mr : Nat) :
    (markFailed q id err mr).1 = q
    ∨ ∃ t t', q.getTask id = some t
        ∧ t'.id = t.id ∧ t'.dependsOn = t.dependsOn ∧ t'.attempts = t.attempts
        ∧ (t'.status = TaskStatus.ready ∨ t'.status = TaskStatus.failed)
        ∧ (t'.status = TaskStatus.ready → t.attempts < t.retries.getD mr)
        ∧ (markFailed q id err mr).1
            = { q with tasks := setTask q.tasks t' } := by
  cases hq : q.getTask id with
  | none => left; simp [markFailed, hq]
  | some t =>
    right
    simp only [markFailed, hq]
    split_ifs with hr
    · exact ⟨t, { t with error := some err, status := TaskStatus.ready }, rfl, rfl, rfl, rfl,
        Or.inl rfl, fun _ => hr, rfl⟩
    · exact ⟨t, { t with error := some err, status := TaskStatus.failed }, rfl, rfl, rfl, rfl,
        Or.inr rfl, fun hc => TaskStatus.noConfusion hc, rfl⟩

theorem uniqueIds_markFailed (q : QState) (id err : String) (mr : Nat) (h : UniqueIds q) :
    UniqueIds (markFailed q id err mr).1 := by
  rcases markFailed_cases q id err mr with he | ⟨t, t', hq, _, _, _, _, _, he⟩
  · rw [he]; exact h
  · rw [he]; exact nodup_map_id_setTask h

theorem qInv_markFailed {q : QState} {id : String} (err : String) (mr : Nat)
    (hQ : QInv q) (hid : GoodId q id) : QInv (markFailed q id err mr).1 := by
  rcases markFailed_cases q id err mr with he | ⟨t, t', hq, _, hdeps, _, _, _, he⟩
  · rw [he]; exact hQ
  · rw [he]
    intro u hu hst
    rcases mem_setTask hu with rfl | hu'
    · intro d hd
      rw [hdeps] at hd
      exact hid t hq d hd
    · exact fun d hd => hQ u hu' hst d hd

theorem goodId_markFailed {q : QState} {id : String} (err : String) (mr : Nat) (id' : String)
    (h : GoodId q id') (hid : GoodId q id) : GoodId (markFailed q id err mr).1 id' := by
  rcases markFailed_cases q id err mr with he | ⟨t, t', hq, hids, hdeps, _, _, _, he⟩
  · rw [he]; exact h
  · rw [he]
    intro u hu
    rw [QState.getTask, getTaskL_setTask] at hu
    split_ifs at hu with hcase
    · cases hu
      intro d hd
      rw [hdeps] at hd
      exact hid t hq d hd
    · exact fun d hd => h u hu d hd

theorem markCompleted_completed_mono (q : QState) (id : String) (res : ResultArg)
    (chk : Bool) (now : String) {d : String} (h : d ∈ q.completed) :
    d ∈ (markCompleted q id res chk now).1.completed := by
  cases hq : q.getTask id with
  | none => simpa [markCompleted, hq] using h
  | some t =>
    simp only [markCompleted, hq]
    exact mem_addCompleted id h

theorem uniqueIds_markCompleted (q : QState) (id : String) (res : ResultArg)
    (chk : Bool) (now : String) (h : UniqueIds q) :
    UniqueIds (markCompleted q id res chk now).1 := by
  cases hq : q.getTask id with
  | none => simpa [markCompleted, hq] using h
  | some t =>
    simp only [markCompleted, hq]
    apply uniqueIds_updateReadyTasks
    exact nodup_map_id_setTask h

theorem qInv_markCompleted (q : QState) (id : String) (res : ResultArg)
    (chk : Bool) (now : String) (hQ : QInv q) : QInv (markCompleted q id res chk now).1 := by
  cases hq : q.getTask id with
  | none => simp only [markCompleted, hq]; exact hQ
  | some t =>
    simp only [markCompleted, hq]
    apply qInv_updateReadyTasks
    intro u hu hst
    rcases mem_setTask hu with rfl | hu'
    · rcases hst with h' | h' <;> exact TaskStatus.noConfusion h'
    · exact fun d hd => mem_addCompleted id (hQ u hu' hst d hd)

theorem goodId_markCompleted (q : QState) (id : String) (res : ResultArg)
    (chk : Bool) (now : String) (id' : String) (h : GoodId q id') :
    GoodId (markCompleted q id res chk now).1 id' := by
  cases hq : q.getTask id with
  | none => simp only [markCompleted, hq]; exact h
  | some t =>
    have hid : t.id = id := getTaskL_eq_id hq
    simp only [markCompleted, hq]
    apply goodId_updateReadyTasks
    intro u hu
    rw [QState.getTask, getTaskL_setTask] at hu
    split_ifs at hu with hcase
    · cases hu
      intro d hd
      refine mem_addCompleted id (h t ?_ d hd)
      rw [QState.getTask, ← hcase]
      exact hid ▸ hq
    · exact fun d hd => mem_addCompleted id (h u hu d hd)

theorem trySpawnAgents_inv (cfg : Config) {s : OState} (h : Inv s) :
    Inv (trySpawnAgents cfg s) := by
  unfold trySpawnAgents
  split_ifs with h1 h2
  · exact h
  · exact h
  · obtain ⟨hU, hQ, hI, hB⟩ := h
    refine ⟨hU, hQ, ?_, hB⟩
    intro b hb id hid
    rcases List.mem_append.1 hb with hb' | hb'
    · exact hI b hb' id hid
    · rw [List.mem_singleton] at hb'
      subst hb'
      rcases List.mem_map.1 hid with ⟨t, htmem, rfl⟩
      have htake : t ∈ s.queue.getReadyTasks := List.take_subset _ _ htmem
      obtain ⟨hmem, hready⟩ := mem_getReadyTasks htake
      intro u hu
      rw [QState.getTask, getTaskL_of_mem hU hmem] at hu
      cases hu
      exact hQ t hmem (Or.inl hready)

theorem applyQueueEvents_inv {s : OState} {evs : List QEvent} (h : Inv s) :
    Inv (applyQueueEvents s evs) := by
  unfold applyQueueEvents
  split_ifs
  · exact h
  · exact h

theorem spawnOkF_inv {s : OState} {i : Nat} {tid : String} {rest : List String} (ag : String)
    (hctx : s.inflight.get? i = some (tid :: rest)) (h : Inv s) :
    Inv (spawnOkF s i tid rest ag) := by
  obtain ⟨hU, hQ, hI, hB⟩ := h
  have hbatch : (tid :: rest) ∈ s.inflight := List.get?_mem hctx
  have hgood : GoodId s.queue tid := hI _ hbatch tid (List.mem_cons_self _ _)
  refine ⟨uniqueIds_markRunning _ _ _ hU, qInv_markRunning ag hQ hgood, ?_, ?_⟩
  · intro b hb id hid
    have hb' := List.mem_or_eq_of_mem_set hb
    have hg : GoodId s.queue id := by
      rcases hb' with hb'' | rfl
      · exact hI b hb'' id hid
      · exact hI _ hbatch id (List.mem_cons_of_mem _ hid)
    exact goodId_markRunning ag id hg hgood
  · intro p hp
    rcases List.mem_append.1 hp with hp' | hp'
    · exact goodId_markRunning ag _ (hB p hp') hgood
    · rw [List.mem_singleton] at hp'
      subst hp'
      exact goodId_markRunning ag _ hgood hgood

theorem spawnErrF_inv {s : OState} {i : Nat} {tid : String} {rest : List String}
    (err : String) (hctx : s.inflight.get? i = some (tid :: rest)) (h : Inv s) :
    Inv (spawnErrF s i tid rest err) := by
  obtain ⟨hU, hQ, hI, hB⟩ := h
  have hbatch : (tid :: rest) ∈ s.inflight := List.get?_mem hctx
  have hgood : GoodId s.queue tid := hI _ hbatch tid (List.mem_cons_self _ _)
  apply applyQueueEvents_inv
  refine ⟨uniqueIds_markFailed _ _ _ _ hU, qInv_markFailed err 2 hQ hgood, ?_, ?_⟩
  · intro b hb id hid
    have hb' := List.mem_or_eq_of_mem_set hb
    have hg : GoodId s.queue id := by
      rcases hb' with hb'' | rfl
      · exact hI b hb'' id hid
      · exact hI _ hbatch id (List.mem_cons_of_mem _ hid)
    exact goodId_markFailed err 2 id hg hgood
  · intro p hp
    exact goodId_markFailed err 2 _ (hB p hp) hgood

theorem handleAgentCompleteF_inv (cfg : Config) {s : OState} (ag : String) (res : ResultArg)
    (now : String) (h : Inv s) : Inv (handleAgentCompleteF cfg s ag res now) := by
  obtain ⟨hU, hQ, hI, hB⟩ := h
  unfold handleAgentCompleteF
  cases hq : lookupAgent s.activeAgents ag with
  | none => exact ⟨hU, hQ, hI, hB⟩
  | some tid =>
    apply trySpawnAgents_inv
    apply applyQueueEvents_inv
    refine ⟨uniqueIds_markCompleted _ _ _ _ _ hU, qInv_markCompleted _ _ _ _ _ hQ, ?_, ?_⟩
    · intro b hb id hid
      exact goodId_markCompleted _ _ _ _ _ _ (hI b hb id hid)
    · intro p hp
      exact goodId_markCompleted _ _ _ _ _ _ (hB p (mem_removeAgent hp))

theorem handleAgentFailedF_inv (cfg : Config) {s : OState} (ag err : String)
    (h : Inv s) : Inv (handleAgentFailedF cfg s ag err) := by
  obtain ⟨hU, hQ, hI, hB⟩ := h
  unfold handleAgentFailedF
  cases hq : lookupAgent s.activeAgents ag with
  | none => exact ⟨hU, hQ, hI, hB⟩
  | some tid =>
    have hgood : GoodId s.queue tid := hB (ag, tid) (lookupAgent_mem hq)
    apply trySpawnAgents_inv
    apply applyQueueEvents_inv
    refine ⟨uniqueIds_markFailed _ _ _ _ hU, qInv_markFailed err 2 hQ hgood, ?_, ?_⟩
    · intro b hb id hid
      exact goodId_markFailed err 2 id (hI b hb id hid) hgood
    · intro p hp
      exact goodId_markFailed err 2 _ (hB p (mem_removeAgent hp)) hgood

theorem timeoutFireF_inv (cfg : Config) {s : OState} (ag : String) (h : Inv s) :
    Inv (timeoutFireF cfg s ag) := by
  unfold timeoutFireF
  cases hq : lookupAgent s.activeAgents ag with
  | none => exact h
  | some tid => exact handleAgentFailedF_inv cfg ag "Timeout exceeded" h

theorem step_inv {cfg : Config} {s s' : OState} (hstep : Step cfg s s') (h : Inv s) :
    Inv s' := by
  cases hstep with
  | start h1 => exact trySpawnAgents_inv cfg h
  | dispatch => exact trySpawnAgents_inv cfg h
  | spawnOk i tid rest ag hctx hfresh => exact spawnOkF_inv ag hctx h
  | spawnErr i tid rest err hctx => exact spawnErrF_inv err hctx h
  | complete ag res now => exact handleAgentCompleteF_inv cfg ag res now h
  | failed ag err => exact handleAgentFailedF_inv cfg ag err h
  | timeoutFire ag h1 => exact timeoutFireF_inv cfg ag h
  | stop => exact h

theorem qInv_setTask_pending {q : QState} (i : TaskInput) (hQ : QInv q) :
    QInv { q with tasks := setTask q.tasks (taskOfInput i) } := by
  intro u hu hst
  rcases mem_setTask hu with rfl | hu'
  · rcases hst with h' | h' <;> exact TaskStatus.noConfusion h'
  · exact fun d hd => hQ u hu' hst d hd

theorem addTasksGo_inv (now : String) (inputs : List TaskInput) (q : QState)
    (evs : List QEvent) (h : UniqueIds q ∧ QInv q) :
    UniqueIds (addTasksGo now q evs inputs).1 ∧ QInv (addTasksGo now q evs inputs).1 := by
  induction inputs generalizing q evs with
  | nil => exact h
  | cons i rest ih =>
    simp only [addTasksGo]
    split_ifs with hc
    · exact ih _ _
        ⟨uniqueIds_markCompleted _ _ _ _ _ (nodup_map_id_setTask h.1),
         qInv_markCompleted _ _ _ _ _ (qInv_setTask_pending i h.2)⟩
    · exact ih _ _ ⟨nodup_map_id_setTask h.1, qInv_setTask_pending i h.2⟩

theorem initState_inv (inputs : List TaskInput) (now : String) : Inv (initState inputs now) := by
  have hgo := addTasksGo_inv now inputs emptyQ []
    ⟨List.nodup_nil, fun t ht => absurd ht (List.not_mem_nil t)⟩
  refine ⟨?_, ?_, ?_, ?_⟩
  · exact uniqueIds_updateReadyTasks hgo.1
  · exact qInv_updateReadyTasks hgo.2
  · intro b hb
    exact absurd hb (List.not_mem_nil b)
  · intro p hp
    exact absurd hp (List.not_mem_nil p)

theorem reachable_inv {cfg : Config} {inputs : List TaskInput} {now : String} {s : OState}
    (h : Reachable cfg inputs now s) : Inv s := by
  unfold Reachable at h
  induction h with
  | refl => exact initState_inv inputs now
  | tail hr hstep ih => exact step_inv hstep ih

/-- Claim C4 (confirmed).  (i) In every reachable state (one load, then any
interleaving of dispatch, spawn resolutions, signals, timers, stop), no task
whose status is `ready` — including tasks returned to `ready` by the retry
path of `markFailed` — has a dependency id outside the completed-ids set.
(ii) The readiness scan promotes a `pending` task to `ready` exactly when
every id in its `dependsOn` is in the completed-ids set, and (iii) the scan
applies exactly this promotion to every task of the table. -/
theorem c4_ready_deps_complete (cfg : Config) (inputs : List TaskInput) (now : String)
    (s : OState) (h : Reachable cfg inputs now s) :
    (∀ t ∈ s.queue.tasks, t.status = TaskStatus.ready →
        ∀ d ∈ t.dependsOn, d ∈ s.queue.completed)
    ∧ (∀ (c : List String) (t : Task), t.status = TaskStatus.pending →
        ((promoteReady c t).status = TaskStatus.ready ↔ ∀ d ∈ t.dependsOn, d ∈ c))
    ∧ (∀ (c : List String) (l : List Task), (updateReadyTasksL c l).1 = l.map (promoteReady c)) := by
  refine ⟨?_, ?_, updateReadyTasksL_fst⟩
  · intro t ht hready
    exact (reachable_inv h).2.1 t ht (Or.inl hready)
  · intro c t hp
    constructor
    · intro hr d hd
      by_cases hdc : depsComplete c t
      · exact hdc d hd
      · simp only [promoteReady, if_neg (fun hand => hdc (And.right hand))] at hr
        rw [hp] at hr
        exact TaskStatus.noConfusion hr
    · intro hdc
      unfold promoteReady
      rw [if_pos (And.intro hp (show depsComplete c t from hdc))]

/-- Claim C4 witness: the invariant at the concrete reachable state loaded with
a pre-completed task x and a dependent task y (y is `ready`, its dependency x
is in the completed set). -/
theorem c4_witness :
    Reachable exCfg2 [exInputP, exInputQ] "t" (initState [exInputP, exInputQ] "t")
    ∧ (∀ t ∈ (initState [exInputP, exInputQ] "t").queue.tasks,
        t.status = TaskStatus.ready →
        ∀ d ∈ t.dependsOn, d ∈ (initState [exInputP, exInputQ] "t").queue.completed) :=
  ⟨Relation.ReflTransGen.refl,
   (c4_ready_deps_complete exCfg2 [exInputP, exInputQ] "t" _ Relation.ReflTransGen.refl).1⟩

end Spawnee
